import Mathlib

/-!
Verification of the VGA text-buffer driver (`src/vga_buffer.rs`).

The Rust source is shallowly embedded: the 25×80 cell grid becomes a
function `Nat → Nat → ScreenChar`, the `Writer` struct becomes a Lean
structure, and each method becomes a pure state transformer.  The
volatile per-cell reads and writes of the source loops are embedded as
sequential `foldl`s over the same index ranges, so each read observes
every write issued before it, exactly as in the source.
-/

namespace VgaBuffer

/-- The 16 VGA colors, in the order of the `Color` enum of the source. -/
inductive Color where
  | Black
  | Blue
  | Green
  | Cyan
  | Red
  | Magenta
  | Brown
  | LightGray
  | DarkGray
  | LightBlue
  | LightGreen
  | LightCyan
  | LightRed
  | Pink
  | Yellow
  | White
  deriving DecidableEq, Repr

/-- The `repr(u8)` discriminant of each color (`color as u8` in the source). -/
def Color.code : Color → Nat
  | .Black => 0
  | .Blue => 1
  | .Green => 2
  | .Cyan => 3
  | .Red => 4
  | .Magenta => 5
  | .Brown => 6
  | .LightGray => 7
  | .DarkGray => 8
  | .LightBlue => 9
  | .LightGreen => 10
  | .LightCyan => 11
  | .LightRed => 12
  | .Pink => 13
  | .Yellow => 14
  | .White => 15

/-- `struct ColorCode(u8)`: a packed color byte. -/
structure ColorCode where
  val : Nat
  deriving DecidableEq, Repr

/-- `ColorCode::new`: `(background as u8) << 4 | (foreground as u8)`. -/
def ColorCode.new (foreground background : Color) : ColorCode :=
  ⟨background.code <<< 4 ||| foreground.code⟩

/-- `struct ScreenChar`: one display cell, an ASCII byte plus a color byte. -/
structure ScreenChar where
  ascii_character : Nat
  color_code : ColorCode
  deriving DecidableEq, Repr

/-- `BUFFER_HEIGHT = 25`. -/
def BUFFER_HEIGHT : Nat := 25

/-- `BUFFER_WIDTH = 80`. -/
def BUFFER_WIDTH : Nat := 80

/-- The VGA text buffer: cell contents indexed by (row, column).
Only indices with row < 25 and column < 80 correspond to hardware cells. -/
def Buffer : Type := Nat → Nat → ScreenChar

/-- A single volatile cell write: `buffer.chars[r][c].write ch`. -/
def writeCell (buf : Buffer) (r c : Nat) (ch : ScreenChar) : Buffer :=
  fun r' c' => if r' = r ∧ c' = c then ch else buf r' c'

/-- `struct Writer`: current column, active color, and the buffer. -/
structure Writer where
  column_position : Nat
  color_code : ColorCode
  buffer : Buffer

/-- The inner loop of `new_line` for one fixed `row`:
`for col in 0..BUFFER_WIDTH { let ch = chars[row][col].read(); chars[row-1][col].write(ch) }`.
Each read is performed on the buffer state current at that iteration. -/
def copyRowUp (buf : Buffer) (row : Nat) : Buffer :=
  (List.range BUFFER_WIDTH).foldl
    (fun b col => writeCell b (row - 1) col (b row col)) buf

/-- The outer loop of `new_line`: `for row in 1..BUFFER_HEIGHT`. -/
def shiftRows (buf : Buffer) : Buffer :=
  (List.range' 1 (BUFFER_HEIGHT - 1)).foldl copyRowUp buf

/-- `Writer::clear_row`: fill `row` with blank cells
(space, current color), iterating `for col in 0..BUFFER_WIDTH`. -/
def clear_row (w : Writer) (row : Nat) : Writer :=
  { w with
    buffer :=
      (List.range BUFFER_WIDTH).foldl
        (fun b col => writeCell b row col ⟨0x20, w.color_code⟩) w.buffer }

/-- `Writer::new_line`: shift every row up by one, clear the bottom row,
then set `column_position = 0`. -/
def new_line (w : Writer) : Writer :=
  let w1 := clear_row { w with buffer := shiftRows w.buffer } (BUFFER_HEIGHT - 1)
  { w1 with column_position := 0 }

/-- `Writer::write_byte`: on `\n` take a new line; otherwise wrap first if
the column has reached `BUFFER_WIDTH`, then write the byte with the
current color at (row 24, current column) and advance the column. -/
def write_byte (w : Writer) (byte : Nat) : Writer :=
  if byte = 0x0a then
    new_line w
  else
    let w1 := if w.column_position ≥ BUFFER_WIDTH then new_line w else w
    { w1 with
      buffer :=
        writeCell w1.buffer (BUFFER_HEIGHT - 1) w1.column_position
          ⟨byte, w1.color_code⟩
      column_position := w1.column_position + 1 }

/-- `Writer::write_string`: iterate the bytes of the string in order;
forward printable ASCII (0x20–0x7e) and newline unchanged, and forward
the placeholder byte 0xfe for anything else. -/
def write_string (w : Writer) (s : List Nat) : Writer :=
  s.foldl
    (fun w byte =>
      if (0x20 ≤ byte ∧ byte ≤ 0x7e) ∨ byte = 0x0a then write_byte w byte
      else write_byte w 0xfe) w

/-- The error type of `core::fmt`. -/
inductive FmtError where
  | mk
  deriving DecidableEq, Repr

/-- `impl fmt::Write for Writer`: `write_str` writes the string and
returns `Ok(())`. -/
def write_str (w : Writer) (s : List Nat) : Writer × Except FmtError Unit :=
  (write_string w s, Except.ok ())

/-- `_print` (less the lock): feed the formatted bytes through
`write_str` and `unwrap` the result; `none` models the panic branch. -/
def printImpl (w : Writer) (s : List Nat) : Option Writer :=
  match write_str w s with
  | (w', Except.ok _) => some w'
  | (_, Except.error _) => none

/-- The initial state of the `WRITER` singleton: column 0, yellow on
black.  The hardware buffer's initial contents are unknown, hence a
parameter. -/
def writerInit (buf : Buffer) : Writer :=
  { column_position := 0
    color_code := ColorCode.new Color.Yellow Color.Black
    buffer := buf }

/-- One writer operation, as reachable through the module's interface. -/
inductive WriterOp where
  | byte (b : Nat)
  | str (s : List Nat)
  | newline

/-- Apply one operation to the writer. -/
def applyOp (w : Writer) : WriterOp → Writer
  | .byte b => write_byte w b
  | .str s => write_string w s
  | .newline => new_line w

/-- Apply a sequence of operations to the writer. -/
def applyOps (w : Writer) (ops : List WriterOp) : Writer :=
  ops.foldl applyOp w

/-- Iterate `new_line` n times. -/
def iterNewLine : Nat → Writer → Writer
  | 0, w => w
  | n + 1, w => new_line (iterNewLine n w)

/-- A concrete test buffer whose cells are all distinct. -/
def testBuf : Buffer :=
  fun r c => ⟨r * 100 + c, ⟨7⟩⟩

/-- A concrete writer used by the witness theorems. -/
def testW : Writer :=
  { column_position := 0
    color_code := ColorCode.new Color.Yellow Color.Black
    buffer := testBuf }

/-- A concrete writer sitting at column 5. -/
def testW5 : Writer :=
  { testW with column_position := 5 }

/-! ### Characterizations of the loops -/

theorem writeCell_eval (buf : Buffer) (r c : Nat) (ch : ScreenChar) (r' c' : Nat) :
    writeCell buf r c ch r' c' = if r' = r ∧ c' = c then ch else buf r' c' := rfl

theorem copyRowAux_eval (row : Nat) (hrow : 1 ≤ row) (cols : List Nat)
    (buf : Buffer) (r' c' : Nat) :
    (cols.foldl (fun b col => writeCell b (row - 1) col (b row col)) buf) r' c'
      = if r' = row - 1 ∧ c' ∈ cols then buf row c' else buf r' c' := by
  induction cols generalizing buf with
  | nil => simp
  | cons col cs ih =>
    have hne : ¬ (row = row - 1) := by omega
    simp only [List.foldl_cons]
    rw [ih]
    simp only [List.mem_cons, writeCell, hne, false_and, if_false]
    by_cases h1 : r' = row - 1 <;> by_cases h2 : c' ∈ cs <;> by_cases h3 : c' = col <;>
      simp_all

theorem copyRowUp_eval (buf : Buffer) (row : Nat) (hrow : 1 ≤ row) (r' c' : Nat) :
    copyRowUp buf row r' c'
      = if r' = row - 1 ∧ c' < 80 then buf row c' else buf r' c' := by
  rw [copyRowUp, copyRowAux_eval row hrow]
  simp [List.mem_range, BUFFER_WIDTH]

theorem shiftRowsAux_eval (k : Nat) (buf : Buffer) (r' c' : Nat) :
    ((List.range' 1 k).foldl copyRowUp buf) r' c'
      = if r' < k ∧ c' < 80 then buf (r' + 1) c' else buf r' c' := by
  induction k generalizing r' c' with
  | zero => simp
  | succ k ih =>
    have hconcat : List.range' 1 (k + 1) 1 = List.range' 1 k 1 ++ [1 + 1 * k] :=
      List.range'_concat 1 k
    rw [show (1 : Nat) + 1 * k = k + 1 from by omega] at hconcat
    rw [hconcat, List.foldl_append]
    simp only [List.foldl_cons, List.foldl_nil]
    rw [copyRowUp_eval _ (k + 1) (by omega)]
    simp only [Nat.add_sub_cancel]
    by_cases h1 : r' = k <;> by_cases h2 : c' < 80
    · rw [if_pos ⟨h1, h2⟩, ih (k + 1) c', if_neg (by omega), if_pos ⟨by omega, h2⟩, h1]
    · rw [if_neg (by omega), ih, if_neg (by omega), if_neg (by omega)]
    · rw [if_neg (by omega), ih]
      by_cases h3 : r' < k
      · rw [if_pos ⟨h3, h2⟩, if_pos ⟨by omega, h2⟩]
      · rw [if_neg (by omega), if_neg (by omega)]
    · rw [if_neg (by omega), ih, if_neg (by omega), if_neg (by omega)]

theorem shiftRows_eval (buf : Buffer) (r' c' : Nat) :
    shiftRows buf r' c'
      = if r' < 24 ∧ c' < 80 then buf (r' + 1) c' else buf r' c' := by
  rw [shiftRows]
  exact shiftRowsAux_eval 24 buf r' c'

theorem clearRowAux_eval (row : Nat) (blank : ScreenChar) (cols : List Nat)
    (buf : Buffer) (r' c' : Nat) :
    (cols.foldl (fun b col => writeCell b row col blank) buf) r' c'
      = if r' = row ∧ c' ∈ cols then blank else buf r' c' := by
  induction cols generalizing buf with
  | nil => simp
  | cons col cs ih =>
    simp only [List.foldl_cons]
    rw [ih]
    simp only [List.mem_cons, writeCell]
    by_cases h1 : r' = row <;> by_cases h2 : c' ∈ cs <;> by_cases h3 : c' = col <;>
      simp_all

theorem clear_row_eval (w : Writer) (row : Nat) (r' c' : Nat) :
    (clear_row w row).buffer r' c'
      = if r' = row ∧ c' < 80 then ⟨0x20, w.color_code⟩ else w.buffer r' c' := by
  rw [clear_row]
  simp only
  rw [clearRowAux_eval]
  simp [List.mem_range, BUFFER_WIDTH]

theorem clear_row_col (w : Writer) (row : Nat) :
    (clear_row w row).column_position = w.column_position := rfl

theorem clear_row_color (w : Writer) (row : Nat) :
    (clear_row w row).color_code = w.color_code := rfl

theorem new_line_buffer (w : Writer) (r c : Nat) :
    (new_line w).buffer r c
      = if r = 24 ∧ c < 80 then ⟨0x20, w.color_code⟩
        else if r < 24 ∧ c < 80 then w.buffer (r + 1) c
        else w.buffer r c := by
  show (clear_row { w with buffer := shiftRows w.buffer } (BUFFER_HEIGHT - 1)).buffer r c = _
  rw [clear_row_eval]
  simp only [BUFFER_HEIGHT, shiftRows_eval]

theorem new_line_col (w : Writer) : (new_line w).column_position = 0 := rfl

theorem new_line_color (w : Writer) : (new_line w).color_code = w.color_code := rfl

/-! ### Case analysis of `write_byte` and frame lemmas -/

theorem write_byte_newline (w : Writer) : write_byte w 0x0a = new_line w := by
  rw [write_byte, if_pos rfl]

theorem write_byte_no_wrap (w : Writer) (b : Nat) (hb : b ≠ 0x0a)
    (hc : w.column_position < 80) :
    write_byte w b
      = { w with
          buffer := writeCell w.buffer 24 w.column_position ⟨b, w.color_code⟩
          column_position := w.column_position + 1 } := by
  rw [write_byte, if_neg hb]
  simp only [BUFFER_WIDTH, BUFFER_HEIGHT, ge_iff_le]
  rw [if_neg (by omega)]

theorem write_byte_wrap (w : Writer) (b : Nat) (hb : b ≠ 0x0a)
    (hc : 80 ≤ w.column_position) :
    write_byte w b
      = { new_line w with
          buffer := writeCell (new_line w).buffer 24 0 ⟨b, w.color_code⟩
          column_position := 1 } := by
  rw [write_byte, if_neg hb]
  simp only [BUFFER_WIDTH, BUFFER_HEIGHT, ge_iff_le]
  rw [if_pos hc]
  rfl

theorem write_byte_color (w : Writer) (b : Nat) :
    (write_byte w b).color_code = w.color_code := by
  rw [write_byte]
  split
  · exact new_line_color w
  · show (if w.column_position ≥ BUFFER_WIDTH then new_line w else w).color_code
        = w.color_code
    split
    · exact new_line_color w
    · rfl

theorem write_string_color (w : Writer) (s : List Nat) :
    (write_string w s).color_code = w.color_code := by
  induction s generalizing w with
  | nil => rfl
  | cons b t ih =>
    show (write_string (if (0x20 ≤ b ∧ b ≤ 0x7e) ∨ b = 0x0a then write_byte w b
            else write_byte w 0xfe) t).color_code = w.color_code
    split <;> rw [ih, write_byte_color]

theorem write_byte_col_le (w : Writer) (b : Nat) :
    (write_byte w b).column_position ≤ 80 := by
  by_cases hb : b = 0x0a
  · rw [hb, write_byte_newline, new_line_col]
    omega
  · by_cases hc : w.column_position < 80
    · rw [write_byte_no_wrap w b hb hc]
      show w.column_position + 1 ≤ 80
      omega
    · rw [write_byte_wrap w b hb (by omega)]
      show 1 ≤ 80
      omega

theorem write_string_col_le (w : Writer) (s : List Nat)
    (h : w.column_position ≤ 80) :
    (write_string w s).column_position ≤ 80 := by
  induction s generalizing w with
  | nil => exact h
  | cons b t ih =>
    show (write_string (if (0x20 ≤ b ∧ b ≤ 0x7e) ∨ b = 0x0a then write_byte w b
            else write_byte w 0xfe) t).column_position ≤ 80
    split <;> exact ih _ (write_byte_col_le _ _)

theorem write_string_cons (w : Writer) (b : Nat) (s : List Nat) :
    write_string w (b :: s)
      = write_string
          (write_byte w (if (0x20 ≤ b ∧ b ≤ 0x7e) ∨ b = 0x0a then b else 0xfe)) s := by
  show write_string (if (0x20 ≤ b ∧ b ≤ 0x7e) ∨ b = 0x0a then write_byte w b
          else write_byte w 0xfe) s = _
  split <;> rfl

/-! ### Writing a run of printable bytes -/

theorem write_string_printable_aux (s : List Nat) (w : Writer)
    (hcol : w.column_position + s.length ≤ 80)
    (hp : ∀ b ∈ s, 0x20 ≤ b ∧ b ≤ 0x7e) :
    (write_string w s).column_position = w.column_position + s.length ∧
    ∀ r c, (write_string w s).buffer r c
      = if r = 24 ∧ w.column_position ≤ c ∧ c < w.column_position + s.length
        then ⟨s.getD (c - w.column_position) 0, w.color_code⟩
        else w.buffer r c := by
  induction s generalizing w with
  | nil =>
    refine ⟨by simp [write_string], fun r c => ?_⟩
    show w.buffer r c = _
    rw [if_neg (by simp)]
  | cons b t ih =>
    have hpb : 0x20 ≤ b ∧ b ≤ 0x7e := hp b (List.mem_cons_self b t)
    have hbn : b ≠ 0x0a := by omega
    have hclt : w.column_position < 80 := by
      simp only [List.length_cons] at hcol
      omega
    rw [write_string_cons, if_pos (Or.inl hpb),
        write_byte_no_wrap w b hbn hclt]
    obtain ⟨ih1, ih2⟩ := ih
      { w with
        buffer := writeCell w.buffer 24 w.column_position ⟨b, w.color_code⟩
        column_position := w.column_position + 1 }
      (by simp only [List.length_cons] at hcol; simpa using by omega)
      (fun x hx => hp x (List.mem_cons_of_mem b hx))
    refine ⟨by rw [ih1]; simp only [List.length_cons]; omega, fun r c => ?_⟩
    rw [ih2 r c]
    simp only [writeCell, List.length_cons]
    by_cases h1 : r = 24
    · by_cases h2 : c = w.column_position
      · rw [if_neg (by omega), if_pos ⟨h1, h2⟩, if_pos ⟨h1, by omega⟩, h2,
            Nat.sub_self, List.getD_cons_zero]
      · by_cases h3 : w.column_position + 1 ≤ c ∧ c < w.column_position + 1 + t.length
        · rw [if_pos ⟨h1, h3.1, by omega⟩, if_pos ⟨h1, by omega, by omega⟩,
              show c - w.column_position = (c - (w.column_position + 1)) + 1 from by omega,
              List.getD_cons_succ]
        · rw [if_neg (by omega), if_neg (by omega), if_neg (by omega)]
    · rw [if_neg (by omega), if_neg (by omega), if_neg (by omega)]

/-! ### Iterated scrolling -/

theorem iterNewLine_add (a b : Nat) (w : Writer) :
    iterNewLine (a + b) w = iterNewLine a (iterNewLine b w) := by
  induction a with
  | zero => rw [Nat.zero_add]; rfl
  | succ a ih =>
    rw [show a + 1 + b = (a + b) + 1 from by omega]
    show new_line (iterNewLine (a + b) w) = new_line (iterNewLine a (iterNewLine b w))
    rw [ih]

theorem iterNewLine_color (n : Nat) (w : Writer) :
    (iterNewLine n w).color_code = w.color_code := by
  induction n with
  | zero => rfl
  | succ n ih =>
    show (new_line (iterNewLine n w)).color_code = w.color_code
    rw [new_line_color, ih]

theorem iterNewLine_shift (n : Nat) (w : Writer) (r c : Nat)
    (h : r + n ≤ 24) (hc : c < 80) :
    (iterNewLine n w).buffer r c = w.buffer (r + n) c := by
  induction n generalizing r with
  | zero => rfl
  | succ n ih =>
    show (new_line (iterNewLine n w)).buffer r c = _
    rw [new_line_buffer, if_neg (by omega), if_pos ⟨by omega, hc⟩,
        ih (r + 1) (by omega), show r + 1 + n = r + (n + 1) from by omega]

/-! ### Color preservation across every interface operation -/

theorem applyOp_color (w : Writer) (op : WriterOp) :
    (applyOp w op).color_code = w.color_code := by
  cases op with
  | byte b => exact write_byte_color w b
  | str s => exact write_string_color w s
  | newline => exact new_line_color w

theorem applyOps_color (w : Writer) (ops : List WriterOp) :
    (applyOps w ops).color_code = w.color_code := by
  induction ops generalizing w with
  | nil => rfl
  | cons op ops ih =>
    show (applyOps (applyOp w op) ops).color_code = w.color_code
    rw [ih, applyOp_color]

/-! ### The claims -/

/-- C1: `write_byte` implements exactly this transition: on `\n` it performs one
scroll-newline and the column becomes 0 regardless of the current column; on any
other byte, if the column is below 80 it writes the byte with the current color
into cell (24, column) and advances the column by one with no scroll, and if the
column has reached 80 it first performs exactly one scroll-newline (resetting the
column to 0), then writes the byte at (24, 0) and sets the column to 1 — the wrap
is checked lazily at the start of the write. -/
theorem C1_write_byte_transition (w : Writer) (b : Nat) :
    (b = 0x0a → write_byte w b = new_line w ∧ (write_byte w b).column_position = 0) ∧
    (b ≠ 0x0a → w.column_position < 80 →
      write_byte w b
        = { w with
            buffer := writeCell w.buffer 24 w.column_position ⟨b, w.color_code⟩
            column_position := w.column_position + 1 }) ∧
    (b ≠ 0x0a → 80 ≤ w.column_position →
      write_byte w b
        = { new_line w with
            buffer := writeCell (new_line w).buffer 24 0 ⟨b, w.color_code⟩
            column_position := 1 }) := by
  refine ⟨fun hb => ?_, fun hb hc => write_byte_no_wrap w b hb hc,
    fun hb hc => write_byte_wrap w b hb hc⟩
  rw [hb, write_byte_newline]
  exact ⟨rfl, new_line_col w⟩

/-- Witness for C1: writing byte 65 at column 0 places it at (24, 0) and moves
the column to 1, with no scroll. -/
theorem C1_witness :
    write_byte testW 65
      = { testW with
          buffer := writeCell testW.buffer 24 testW.column_position ⟨65, testW.color_code⟩
          column_position := testW.column_position + 1 } :=
  (C1_write_byte_transition testW 65).2.1 (by decide) (by decide)

/-- C2: after one `new_line`, every cell (r, c) with r ≤ 23 and c ≤ 79 holds what
cell (r+1, c) held before, and every cell of row 24 is the blank cell: space
(0x20) with the writer's current color code. -/
theorem C2_new_line_scrolls (w : Writer) (r c : Nat) (hr : r ≤ 23) (hc : c ≤ 79) :
    (new_line w).buffer r c = w.buffer (r + 1) c ∧
    (new_line w).buffer 24 c = ⟨0x20, w.color_code⟩ := by
  constructor
  · rw [new_line_buffer, if_neg (by omega), if_pos ⟨by omega, by omega⟩]
  · rw [new_line_buffer, if_pos ⟨rfl, by omega⟩]

/-- Witness for C2: on the concrete test writer, cell (3, 5) receives the old
cell (4, 5) and cell (24, 5) becomes blank. -/
theorem C2_witness :
    (new_line testW).buffer 3 5 = testW.buffer 4 5 ∧
    (new_line testW).buffer 24 5 = ⟨0x20, testW.color_code⟩ :=
  C2_new_line_scrolls testW 3 5 (by decide) (by decide)

/-- C3: `write_string` walks the bytes in order and forwards each byte unchanged
to `write_byte` when it is printable ASCII (0x20–0x7e) or newline, and forwards
the placeholder 0xfe otherwise; in particular, from any state with column below
80, writing byte 0x01 leaves cell (24, column) holding 0xfe. -/
theorem C3_write_string_filters (w : Writer) (b : Nat) (s : List Nat)
    (h : w.column_position < 80) :
    (write_string w (b :: s)
       = write_string
           (write_byte w (if (0x20 ≤ b ∧ b ≤ 0x7e) ∨ b = 0x0a then b else 0xfe)) s) ∧
    write_string w [] = w ∧
    (write_string w [0x01]).buffer 24 w.column_position = ⟨0xfe, w.color_code⟩ := by
  refine ⟨write_string_cons w b s, rfl, ?_⟩
  show (write_byte w 0xfe).buffer 24 w.column_position = _
  rw [write_byte_no_wrap w 0xfe (by omega) h]
  show writeCell w.buffer 24 w.column_position ⟨0xfe, w.color_code⟩ 24 w.column_position = _
  rw [writeCell_eval, if_pos ⟨rfl, rfl⟩]

/-- Witness for C3: with the test writer at column 0, byte 0x41 is forwarded
unchanged and byte 0x01 yields the placeholder 0xfe at (24, 0). -/
theorem C3_witness :
    (write_string testW (0x41 :: [])
       = write_string
           (write_byte testW
             (if (0x20 ≤ 0x41 ∧ 0x41 ≤ 0x7e) ∨ 0x41 = 0x0a then 0x41 else 0xfe)) []) ∧
    write_string testW [] = testW ∧
    (write_string testW [0x01]).buffer 24 testW.column_position
      = ⟨0xfe, testW.color_code⟩ :=
  C3_write_string_filters testW 0x41 [] (by decide)

/-- C4: writing a printable-ASCII string of length below 80 from column 0 leaves
the column equal to the length, places byte i of the string (with the writer's
color) in cell (24, i) for each i below the length, and touches no row above 24
(no scroll occurs). -/
theorem C4_round_trip (s : List Nat) (w : Writer)
    (h0 : w.column_position = 0) (hlen : s.length < 80)
    (hp : ∀ b ∈ s, 0x20 ≤ b ∧ b ≤ 0x7e) :
    (write_string w s).column_position = s.length ∧
    (∀ i, i < s.length → (write_string w s).buffer 24 i = ⟨s.getD i 0, w.color_code⟩) ∧
    (∀ r c, r ≤ 23 → (write_string w s).buffer r c = w.buffer r c) := by
  obtain ⟨h1, h2⟩ := write_string_printable_aux s w (by omega) hp
  refine ⟨by rw [h1, h0, Nat.zero_add], fun i hi => ?_, fun r c hr => ?_⟩
  · rw [h2 24 i, if_pos ⟨rfl, by omega, by omega⟩, h0, Nat.sub_zero]
  · rw [h2 r c, if_neg (by omega)]

/-- Witness for C4: writing "Hi" (bytes 72, 105) from column 0 leaves the column
at 2 and cell (24, 1) holds byte 105. -/
theorem C4_witness :
    (write_string testW [72, 105]).column_position = 2 ∧
    (write_string testW [72, 105]).buffer 24 1 = ⟨105, testW.color_code⟩ := by
  obtain ⟨ha, hb, _⟩ := C4_round_trip [72, 105] testW rfl (by decide) (by decide)
  exact ⟨ha, hb 1 (by decide)⟩

/-- C5: after 25 or more consecutive `new_line` operations, every cell of the
25×80 grid is the blank cell (space with the writer's color code), for any
initial buffer contents. -/
theorem C5_scrolls_clear (w : Writer) (n r c : Nat)
    (hn : 25 ≤ n) (hr : r ≤ 24) (hc : c ≤ 79) :
    (iterNewLine n w).buffer r c = ⟨0x20, w.color_code⟩ := by
  obtain ⟨k, hk, hsplit⟩ : ∃ k, 1 ≤ k ∧ n = (24 - r) + k :=
    ⟨n - (24 - r), by omega, by omega⟩
  rw [hsplit, iterNewLine_add,
      iterNewLine_shift (24 - r) _ r c (by omega) (by omega),
      show r + (24 - r) = 24 from by omega]
  obtain ⟨j, rfl⟩ : ∃ j, k = j + 1 := ⟨k - 1, by omega⟩
  show (new_line (iterNewLine j w)).buffer 24 c = _
  rw [new_line_buffer, if_pos ⟨rfl, by omega⟩, iterNewLine_color]

/-- Witness for C5: 25 scrolls on the concrete test writer blank cell (0, 0). -/
theorem C5_witness :
    (iterNewLine 25 testW).buffer 0 0 = ⟨0x20, testW.color_code⟩ :=
  C5_scrolls_clear testW 25 0 0 (by decide) (by decide) (by decide)

/-- C6: `ColorCode.new` is total on all 16×16 color pairs and returns the byte
(background code << 4) ||| (foreground code): a value below 256 whose high nibble
is the background code and whose low nibble is the foreground code. -/
theorem C6_color_code_new (f b : Color) :
    (ColorCode.new f b).val = b.code <<< 4 ||| f.code ∧
    (ColorCode.new f b).val < 256 ∧
    (ColorCode.new f b).val / 16 = b.code ∧
    (ColorCode.new f b).val % 16 = f.code := by
  cases f <;> cases b <;> decide

/-- C7: from any state with column ≤ 80, every operation keeps the column in
[0, 80]; and every buffer change `write_byte` makes to a row r ≤ 23 is a shift
from the row below (cell (r, c) either keeps its value or receives the old cell
(r+1, c)) — direct character writes target row 24 only. -/
theorem C7_invariants (w : Writer) (h : w.column_position ≤ 80) :
    (∀ b, (write_byte w b).column_position ≤ 80) ∧
    (∀ s, (write_string w s).column_position ≤ 80) ∧
    (new_line w).column_position ≤ 80 ∧
    (∀ b r c, r ≤ 23 →
      (write_byte w b).buffer r c = w.buffer r c ∨
      (write_byte w b).buffer r c = w.buffer (r + 1) c) := by
  refine ⟨fun b => write_byte_col_le w b, fun s => write_string_col_le w s h,
    by rw [new_line_col]; omega, fun b r c hr => ?_⟩
  by_cases hb : b = 0x0a
  · rw [hb, write_byte_newline, new_line_buffer, if_neg (by omega)]
    by_cases hc : c < 80
    · rw [if_pos ⟨by omega, hc⟩]
      exact Or.inr rfl
    · rw [if_neg (by omega)]
      exact Or.inl rfl
  · by_cases hc : w.column_position < 80
    · rw [write_byte_no_wrap w b hb hc]
      show writeCell w.buffer 24 w.column_position ⟨b, w.color_code⟩ r c = _ ∨ _
      rw [writeCell_eval, if_neg (by omega)]
      exact Or.inl rfl
    · rw [write_byte_wrap w b hb (by omega)]
      rw [show ({ new_line w with
              buffer := writeCell (new_line w).buffer 24 0 ⟨b, w.color_code⟩
              column_position := 1 } : Writer).buffer
            = writeCell (new_line w).buffer 24 0 ⟨b, w.color_code⟩ from rfl]
      rw [writeCell_eval, if_neg (by omega), new_line_buffer, if_neg (by omega)]
      by_cases hcc : c < 80
      · rw [if_pos ⟨by omega, hcc⟩]
        exact Or.inr rfl
      · rw [if_neg (by omega)]
        exact Or.inl rfl

/-- Witness for C7: from the test writer (column 0 ≤ 80), writing byte 65 keeps
the column within 80. -/
theorem C7_witness : (write_byte testW 65).column_position ≤ 80 :=
  (C7_invariants testW (by decide)).1 65

/-- Counterexample for C8: the claim says `new_line` leaves `column_position`
unchanged (the reset being the caller's job); on a writer at column 5, `new_line`
changes the column (it sets it to 0 itself). -/
theorem C8_counterexample :
    ¬ ((new_line testW5).column_position = testW5.column_position) := by
  rw [new_line_col]
  decide

/-- C8 (amended): `new_line` itself resets `column_position` to 0 — the reset is
internal to the scroll step, not performed by its caller — and apart from the
buffer row shift, the clearing of row 24 and this column reset it leaves the
writer's `color_code` unchanged. -/
theorem C8_new_line_frame (w : Writer) :
    (new_line w).column_position = 0 ∧ (new_line w).color_code = w.color_code :=
  ⟨new_line_col w, new_line_color w⟩

/-- C9: the output path cannot fail: `write_str` always returns `Ok(())` along
with the updated writer, so the `unwrap` in `_print` never hits the error
branch. -/
theorem C9_write_str_ok (w : Writer) (s : List Nat) :
    write_str w s = (write_string w s, Except.ok ()) ∧
    printImpl w s = some (write_string w s) :=
  ⟨rfl, rfl⟩

/-- C10: no operation modifies `color_code`: `write_byte`, `write_string`,
`new_line` and `clear_row` preserve it, and every operation sequence applied to
the initial singleton state leaves it at the yellow-on-black code. -/
theorem C10_color_constant (w : Writer) :
    (∀ b, (write_byte w b).color_code = w.color_code) ∧
    (∀ s, (write_string w s).color_code = w.color_code) ∧
    (new_line w).color_code = w.color_code ∧
    (∀ row, (clear_row w row).color_code = w.color_code) ∧
    (∀ buf ops, (applyOps (writerInit buf) ops).color_code
        = ColorCode.new Color.Yellow Color.Black) :=
  ⟨fun b => write_byte_color w b, fun s => write_string_color w s,
   new_line_color w, fun row => clear_row_color w row,
   fun buf ops => applyOps_color (writerInit buf) ops⟩

end VgaBuffer
